import Mathlib

/-!
Verification of the Tilin Audio Visualizer (src/src/main.c) against its
natural-language specification.  The C program is shallowly embedded:
machine integers become `Nat`/`Int` with explicit `% FFT_SIZE` where the code
wraps, `float` samples become `ℚ` (the sample path is exact dyadic
arithmetic) and the transcendental render path (`log10f`, `cosf`, `sqrtf`)
becomes functions over `ℝ`.
-/

set_option maxRecDepth 4000

namespace TilinAV

/-- `#define SAMPLE_RATE 44100` (main.c line 17). -/
def SAMPLE_RATE : ℕ := 44100

/-- `#define FFT_SIZE 4096` (main.c line 18).  Marked irreducible so that
terms such as `List.range FFT_SIZE` are treated symbolically. -/
@[irreducible] def FFT_SIZE : ℕ := 4096

/-- `#define BINS (FFT_SIZE/2 + 1)` (main.c line 19).  Irreducible, like
`FFT_SIZE`, so that bin counts stay symbolic. -/
@[irreducible] def BINS : ℕ := FFT_SIZE / 2 + 1

/-- `#define FFT_DELAY_MS (FFT_SIZE * 1000 / SAMPLE_RATE)` (main.c line 20). -/
def FFT_DELAY_MS : ℕ := FFT_SIZE * 1000 / SAMPLE_RATE

/-- The audio-side state of `AppState` (main.c lines 33-34): the ring buffer
`audio_buffer[FFT_SIZE]` (modelled as a function, only indices `< FFT_SIZE`
are ever read or written) and the write cursor `audio_buffer_index`. -/
structure AppAudio where
  audio_buffer : ℕ → ℚ
  audio_buffer_index : ℕ

/-- `float sample = audio_data[i] / 32768.0f` (main.c line 143): normalize a
16-bit signed PCM sample to a float.  Exact in `ℚ` (and also exact in
binary32 for all 16-bit inputs). -/
def normalizeSample (raw : ℤ) : ℚ := (raw : ℚ) / 32768

/-- One iteration of the `audio_callback` loop body (main.c lines 144-145):
store the sample at the cursor, then advance the cursor modulo `FFT_SIZE`. -/
def writeSample (st : AppAudio) (s : ℚ) : AppAudio :=
  { audio_buffer := Function.update st.audio_buffer st.audio_buffer_index s
    audio_buffer_index := (st.audio_buffer_index + 1) % FFT_SIZE }

/-- The `audio_callback` loop (main.c lines 142-146) run over an explicit
list of already-normalized samples, in order. -/
def writeSamples (st : AppAudio) (xs : List ℚ) : AppAudio :=
  xs.foldl writeSample st

/-- `audio_callback` (main.c lines 136-148): the stream of `len` bytes is
reinterpreted as `len / sizeof(int16_t) = len / 2` 16-bit samples
(`audio_data i` is the i-th int16 of the block), each normalized and written
into the ring buffer. -/
def audio_callback (st : AppAudio) (audio_data : ℕ → ℤ) (len : ℕ) : AppAudio :=
  writeSamples st ((List.range (len / 2)).map fun i => normalizeSample (audio_data i))

/-- The window-assembly loop of `process_audio` (main.c lines 157-160):
`fft_input[i] = audio_buffer[(idx + i) % FFT_SIZE]` for `i < FFT_SIZE`,
where `idx` is the current write cursor. -/
def snapshotWindow (st : AppAudio) : List ℚ :=
  (List.range FFT_SIZE).map fun i =>
    st.audio_buffer ((st.audio_buffer_index + i) % FFT_SIZE)

theorem FFT_SIZE_eq : FFT_SIZE = 4096 := by unfold FFT_SIZE; rfl

theorem length_snapshotWindow (st : AppAudio) : (snapshotWindow st).length = FFT_SIZE := by
  simp [snapshotWindow]

theorem snapshotWindow_getElem (st : AppAudio) (i : ℕ) (h : i < (snapshotWindow st).length) :
    (snapshotWindow st)[i] = st.audio_buffer ((st.audio_buffer_index + i) % FFT_SIZE) := by
  simp only [snapshotWindow, List.getElem_map, List.getElem_range]

/-- One ring-buffer write shifts the linearized window left by one and
appends the new sample at the end. -/
theorem snapshotWindow_writeSample (st : AppAudio) (s : ℚ)
    (h : st.audio_buffer_index < FFT_SIZE) :
    snapshotWindow (writeSample st s) = (snapshotWindow st).drop 1 ++ [s] := by
  apply List.ext_getElem
  · simp only [length_snapshotWindow, List.length_append, List.length_drop,
      List.length_singleton, FFT_SIZE_eq]
  · intro i h1 h2
    have hi : i < FFT_SIZE := by rw [length_snapshotWindow] at h1; exact h1
    rw [snapshotWindow_getElem, List.getElem_append]
    simp only [writeSample]
    have hdl : ((snapshotWindow st).drop 1).length = FFT_SIZE - 1 := by
      rw [List.length_drop, length_snapshotWindow]
    by_cases hc : i < FFT_SIZE - 1
    · rw [dif_pos (by rw [hdl]; exact hc)]
      rw [List.getElem_drop, snapshotWindow_getElem]
      have harg : ((st.audio_buffer_index + 1) % FFT_SIZE + i) % FFT_SIZE =
          (st.audio_buffer_index + (1 + i)) % FFT_SIZE := by
        rw [Nat.mod_add_mod]; ring_nf
      rw [harg]
      have hne : (st.audio_buffer_index + (1 + i)) % FFT_SIZE ≠ st.audio_buffer_index := by
        rw [FFT_SIZE_eq] at h hc ⊢
        omega
      exact Function.update_noteq hne _ _
    · rw [dif_neg (by rw [hdl]; exact hc)]
      have hieq : i = FFT_SIZE - 1 := by omega
      have harg : ((st.audio_buffer_index + 1) % FFT_SIZE + i) % FFT_SIZE =
          st.audio_buffer_index := by
        have hA : st.audio_buffer_index < 4096 := by rw [FFT_SIZE_eq] at h; exact h
        have hB : i = 4095 := by rw [FFT_SIZE_eq] at hieq; exact hieq
        rw [FFT_SIZE_eq, hB]
        omega
      rw [harg, Function.update_same]
      exact (List.getElem_singleton s (by rw [hdl]; omega)).symm

/-- Writing a whole batch: the new window is the old window followed by the
batch, with the oldest `batch length` entries dropped. -/
theorem snapshotWindow_writeSamples (xs : List ℚ) : ∀ st : AppAudio,
    st.audio_buffer_index < FFT_SIZE →
    snapshotWindow (writeSamples st xs) = (snapshotWindow st ++ xs).drop xs.length := by
  induction xs with
  | nil => intro st _; simp [writeSamples]
  | cons x xs ih =>
    intro st h
    have h2 : (writeSample st x).audio_buffer_index < FFT_SIZE :=
      Nat.mod_lt _ (by rw [FFT_SIZE_eq]; omega)
    have hone : 1 ≤ (snapshotWindow st).length := by
      rw [length_snapshotWindow, FFT_SIZE_eq]; omega
    calc snapshotWindow (writeSamples st (x :: xs))
        = snapshotWindow (writeSamples (writeSample st x) xs) := rfl
      _ = (snapshotWindow (writeSample st x) ++ xs).drop xs.length := ih _ h2
      _ = (((snapshotWindow st).drop 1 ++ [x]) ++ xs).drop xs.length := by
          rw [snapshotWindow_writeSample st x h]
      _ = (((snapshotWindow st) ++ x :: xs).drop 1).drop xs.length := by
          rw [List.append_assoc, List.singleton_append,
            List.drop_append_of_le_length hone]
      _ = (snapshotWindow st ++ x :: xs).drop (x :: xs).length := by
          rw [List.drop_drop, List.length_cons, Nat.add_comm]

/-- C2: for any sequence of at least `FFT_SIZE` sample writes into the ring
buffer (from any cursor state reachable by the program, i.e. cursor below
`FFT_SIZE`), the window snapshot assembled by `process_audio` — reading
`FFT_SIZE` entries starting at the write cursor and wrapping modulo
`FFT_SIZE` — equals the last `FFT_SIZE` written values in chronological
order (oldest first), independent of the total number of writes. -/
theorem ring_buffer_snapshot_is_last_window (st : AppAudio) (xs : List ℚ)
    (h1 : st.audio_buffer_index < FFT_SIZE) (h2 : FFT_SIZE ≤ xs.length) :
    snapshotWindow (writeSamples st xs) = xs.drop (xs.length - FFT_SIZE) := by
  rw [snapshotWindow_writeSamples xs st h1]
  have hl : (snapshotWindow st).length = FFT_SIZE := length_snapshotWindow st
  have hsplit : xs.length = (snapshotWindow st).length + (xs.length - FFT_SIZE) := by
    rw [hl]; omega
  rw [hsplit, List.drop_append]
  congr 1
  rw [hl]
  omega

/-- Witness for C2 at a concrete state and batch. -/
theorem ring_buffer_snapshot_is_last_window_witness :
    snapshotWindow (writeSamples ⟨fun _ => 0, 0⟩ (List.replicate 5000 1)) =
      (List.replicate 5000 (1 : ℚ)).drop ((List.replicate 5000 (1 : ℚ)).length - FFT_SIZE) :=
  ring_buffer_snapshot_is_last_window ⟨fun _ => 0, 0⟩ (List.replicate 5000 1)
    (by show (0 : ℕ) < FFT_SIZE; rw [FFT_SIZE_eq]; omega)
    (by rw [List.length_replicate, FFT_SIZE_eq]; omega)

theorem audio_buffer_index_writeSamples (xs : List ℚ) : ∀ st : AppAudio,
    st.audio_buffer_index < FFT_SIZE →
    (writeSamples st xs).audio_buffer_index =
      (st.audio_buffer_index + xs.length) % FFT_SIZE := by
  induction xs with
  | nil => intro st h; simp [writeSamples, Nat.mod_eq_of_lt h]
  | cons x xs ih =>
    intro st h
    have h2 : (writeSample st x).audio_buffer_index < FFT_SIZE :=
      Nat.mod_lt _ (by rw [FFT_SIZE_eq]; omega)
    calc (writeSamples st (x :: xs)).audio_buffer_index
        = (writeSamples (writeSample st x) xs).audio_buffer_index := rfl
      _ = ((writeSample st x).audio_buffer_index + xs.length) % FFT_SIZE := ih _ h2
      _ = (st.audio_buffer_index + (x :: xs).length) % FFT_SIZE := by
          show ((st.audio_buffer_index + 1) % FFT_SIZE + xs.length) % FFT_SIZE = _
          rw [FFT_SIZE_eq, List.length_cons]
          omega

/-- C9: from any state with cursor below `FFT_SIZE`, one `audio_callback`
invocation on a block of `len` bytes leaves the cursor below `FFT_SIZE` and
advances it by exactly `len / 2` (the number of 16-bit samples in the
block) positions modulo `FFT_SIZE`. -/
theorem audio_callback_cursor_invariant (st : AppAudio) (audio_data : ℕ → ℤ) (len : ℕ)
    (h : st.audio_buffer_index < FFT_SIZE) :
    (audio_callback st audio_data len).audio_buffer_index =
      (st.audio_buffer_index + len / 2) % FFT_SIZE ∧
    (audio_callback st audio_data len).audio_buffer_index < FFT_SIZE := by
  have key : (audio_callback st audio_data len).audio_buffer_index =
      (st.audio_buffer_index + len / 2) % FFT_SIZE := by
    rw [audio_callback, audio_buffer_index_writeSamples _ st h]
    simp
  exact ⟨key, key ▸ Nat.mod_lt _ (by rw [FFT_SIZE_eq]; omega)⟩

/-- Witness for C9 at a concrete state and a 5-byte block. -/
theorem audio_callback_cursor_invariant_witness :
    (audio_callback ⟨fun _ => 0, 7⟩ (fun _ => 3) 5).audio_buffer_index =
      (7 + 5 / 2) % FFT_SIZE ∧
    (audio_callback ⟨fun _ => 0, 7⟩ (fun _ => 3) 5).audio_buffer_index < FFT_SIZE :=
  audio_callback_cursor_invariant ⟨fun _ => 0, 7⟩ (fun _ => 3) 5
    (by show (7 : ℕ) < FFT_SIZE; rw [FFT_SIZE_eq]; omega)

/-- C7: every normalized sample lies in the closed interval `[-1, 1]`. -/
theorem normalized_sample_in_range (raw : ℤ)
    (h1 : -32768 ≤ raw) (h2 : raw ≤ 32767) :
    -1 ≤ normalizeSample raw ∧ normalizeSample raw ≤ 1 := by
  have q1 : (-32768 : ℚ) ≤ (raw : ℚ) := by exact_mod_cast h1
  have q2 : (raw : ℚ) ≤ 32767 := by exact_mod_cast h2
  unfold normalizeSample
  constructor
  · rw [le_div_iff (by norm_num : (0 : ℚ) < 32768)]
    linarith
  · rw [div_le_iff (by norm_num : (0 : ℚ) < 32768)]
    linarith

/-- Witness for C7 at the most negative 16-bit sample. -/
theorem normalized_sample_in_range_witness :
    -1 ≤ normalizeSample (-32768) ∧ normalizeSample (-32768) ≤ 1 :=
  normalized_sample_in_range (-32768) (by norm_num) (by norm_num)

/-- C10: the upper endpoint is strict — the normalized sample is at most
`32767/32768 < 1` — while `-1` is attained exactly for raw input `-32768`. -/
theorem normalized_sample_strict_upper (raw : ℤ)
    (h1 : -32768 ≤ raw) (h2 : raw ≤ 32767) :
    -1 ≤ normalizeSample raw ∧ normalizeSample raw ≤ 32767 / 32768 ∧
    normalizeSample raw < 1 ∧ (normalizeSample raw = -1 ↔ raw = -32768) := by
  have q1 : (-32768 : ℚ) ≤ (raw : ℚ) := by exact_mod_cast h1
  have q2 : (raw : ℚ) ≤ 32767 := by exact_mod_cast h2
  unfold normalizeSample
  refine ⟨?_, ?_, ?_, ?_⟩
  · rw [le_div_iff (by norm_num : (0 : ℚ) < 32768)]
    linarith
  · rw [div_le_div_iff (by norm_num : (0 : ℚ) < 32768) (by norm_num : (0 : ℚ) < 32768)]
    linarith
  · rw [div_lt_iff (by norm_num : (0 : ℚ) < 32768)]
    linarith
  · rw [div_eq_iff (by norm_num : (32768 : ℚ) ≠ 0)]
    constructor
    · intro hq
      have : (raw : ℚ) = -32768 := by linarith
      exact_mod_cast this
    · intro hz
      rw [hz]
      norm_num

/-- Witness for C10 at the most negative 16-bit sample. -/
theorem normalized_sample_strict_upper_witness :
    -1 ≤ normalizeSample (-32768) ∧ normalizeSample (-32768) ≤ 32767 / 32768 ∧
    normalizeSample (-32768) < 1 ∧ (normalizeSample (-32768) = -1 ↔ (-32768 : ℤ) = -32768) :=
  normalized_sample_strict_upper (-32768) (by norm_num) (by norm_num)

/-- The Hann taper (main.c line 165):
`0.5f * (1 - cosf(2 * M_PI * i / (FFT_SIZE - 1)))`, as a real function of
the index, with the window size `N` a parameter. -/
noncomputable def hann (N : ℕ) (i : ℝ) : ℝ :=
  0.5 * (1 - Real.cos (2 * Real.pi * i / ((N : ℝ) - 1)))

/-- `float db = 10 * log10f(magnitude + 1e-6f)` (main.c line 199). -/
noncomputable def level_dB (m : ℝ) : ℝ := 10 * Real.logb 10 (m + 1e-6)

/-- `sqrtf(real * real + imag * imag)` (main.c line 198). -/
noncomputable def magnitude (re im : ℝ) : ℝ := Real.sqrt (re * re + im * im)

/-- `fmaxf(0, (db + 80) / 80 * max_bar_height)` with
`max_bar_height = win_h * 0.8f` (main.c lines 193 and 201). -/
noncomputable def bar_height (db h : ℝ) : ℝ := max 0 ((db + 80) / 80 * (h * 0.8))

/-- The rendered bar height as a function of the bin magnitude
(main.c lines 199-201 composed). -/
noncomputable def render_height (m h : ℝ) : ℝ := bar_height (level_dB m) h

/-- C5: the Hann taper is 0 at index 0 and at index `N - 1`, and 1 at the
midpoint `(N - 1) / 2`, for every window size `N > 1`. -/
theorem hann_boundary (N : ℕ) (hN : 1 < N) :
    hann N 0 = 0 ∧ hann N ((N : ℝ) - 1) = 0 ∧ hann N (((N : ℝ) - 1) / 2) = 1 := by
  have hcast : (1 : ℝ) < (N : ℝ) := by exact_mod_cast hN
  have hd : ((N : ℝ) - 1) ≠ 0 := by linarith
  refine ⟨?_, ?_, ?_⟩
  · simp [hann]
  · have harg : 2 * Real.pi * ((N : ℝ) - 1) / ((N : ℝ) - 1) = 2 * Real.pi := by
      field_simp
    rw [hann, harg, Real.cos_two_pi]
    ring
  · have harg : 2 * Real.pi * (((N : ℝ) - 1) / 2) / ((N : ℝ) - 1) = Real.pi := by
      field_simp
      ring
    rw [hann, harg, Real.cos_pi]
    ring

/-- Witness for C5 at window size 3. -/
theorem hann_boundary_witness :
    hann 3 0 = 0 ∧ hann 3 (((3 : ℕ) : ℝ) - 1) = 0 ∧ hann 3 ((((3 : ℕ) : ℝ) - 1) / 2) = 1 :=
  hann_boundary 3 (by norm_num)

/-- C6: the decibel map is strictly increasing on non-negative magnitudes,
and hence the bar height is monotonically non-decreasing in the magnitude. -/
theorem level_dB_strictMono (m1 m2 hgt : ℝ) (h0 : 0 ≤ m1) (h12 : m1 < m2)
    (hh : 0 ≤ hgt) :
    level_dB m1 < level_dB m2 ∧ render_height m1 hgt ≤ render_height m2 hgt := by
  have heps : (0 : ℝ) < 1e-6 := by norm_num
  have hpos : (0 : ℝ) < m1 + 1e-6 := by linarith
  have hlog : Real.logb 10 (m1 + 1e-6) < Real.logb 10 (m2 + 1e-6) :=
    Real.logb_lt_logb (by norm_num) hpos (by linarith)
  have hdb : level_dB m1 < level_dB m2 := by
    unfold level_dB; linarith
  refine ⟨hdb, ?_⟩
  unfold render_height bar_height
  apply max_le_max le_rfl
  have h08 : (0 : ℝ) ≤ hgt * 0.8 := by linarith
  apply mul_le_mul_of_nonneg_right _ h08
  exact (div_le_div_right (by norm_num : (0 : ℝ) < 80)).mpr (by linarith)

/-- Witness for C6 at magnitudes 0 and 1 and surface height 1. -/
theorem level_dB_strictMono_witness :
    level_dB 0 < level_dB 1 ∧ render_height 0 1 ≤ render_height 1 1 :=
  level_dB_strictMono 0 1 1 le_rfl (by norm_num) (by norm_num)

/-- C1 counterexample: `render_spectrum` applies only a lower clamp
(`fmaxf(0, ...)`, main.c line 201), so at magnitude 10 (a level above
0 dB) and surface height 100 the computed bar height strictly exceeds
`0.8 * h = 80` — the claimed saturation at `0.8 * h` does not happen. -/
theorem render_height_exceeds_cap : (0.8 : ℝ) * 100 < render_height 10 100 := by
  have hself : Real.logb 10 (10 : ℝ) = 1 := Real.logb_self_eq_one (by norm_num)
  have hmono : Real.logb 10 (10 : ℝ) < Real.logb 10 (10 + 1e-6) :=
    Real.logb_lt_logb (by norm_num) (by norm_num) (by norm_num)
  have hlog : (1 : ℝ) < Real.logb 10 (10 + 1e-6) := hself ▸ hmono
  have hdb : (10 : ℝ) < level_dB 10 := by
    unfold level_dB; linarith
  have hval : (level_dB 10 + 80) / 80 * ((100 : ℝ) * 0.8) = level_dB 10 + 80 := by
    ring
  unfold render_height bar_height
  rw [hval]
  calc (0.8 : ℝ) * 100 = 80 := by norm_num
    _ < level_dB 10 + 80 := by linarith
    _ ≤ max 0 (level_dB 10 + 80) := le_max_right _ _

/-- C1 amended: the bar height is `max 0 ((level_dB + 80) / 80 · 0.8·h)` —
clamped below at 0 (levels at or below −80 dB give zero height) but not
clamped above: a level of exactly 0 dB gives exactly `0.8·h`, and any level
above 0 dB gives a height strictly exceeding `0.8·h`. -/
theorem render_height_characterization (m hgt : ℝ) (hh : 0 < hgt) :
    render_height m hgt = max 0 ((level_dB m + 80) / 80 * (hgt * 0.8)) ∧
    (level_dB m ≤ -80 → render_height m hgt = 0) ∧
    (level_dB m = 0 → render_height m hgt = hgt * 0.8) ∧
    (0 < level_dB m → hgt * 0.8 < render_height m hgt) := by
  have h08 : (0 : ℝ) < hgt * 0.8 := by linarith
  refine ⟨rfl, ?_, ?_, ?_⟩
  · intro hdb
    unfold render_height bar_height
    apply max_eq_left
    have h1 : (level_dB m + 80) / 80 ≤ 0 := by
      apply div_nonpos_of_nonpos_of_nonneg (by linarith) (by norm_num)
    exact mul_nonpos_of_nonpos_of_nonneg h1 (le_of_lt h08)
  · intro hdb
    unfold render_height bar_height
    rw [hdb]
    have hv : ((0 : ℝ) + 80) / 80 * (hgt * 0.8) = hgt * 0.8 := by ring
    rw [hv]
    exact max_eq_right (le_of_lt h08)
  · intro hdb
    unfold render_height bar_height
    have h1 : (1 : ℝ) < (level_dB m + 80) / 80 := by
      rw [lt_div_iff (by norm_num : (0 : ℝ) < 80)]
      linarith
    calc hgt * 0.8 = 1 * (hgt * 0.8) := by ring
      _ < (level_dB m + 80) / 80 * (hgt * 0.8) :=
          (mul_lt_mul_right h08).mpr h1
      _ ≤ max 0 ((level_dB m + 80) / 80 * (hgt * 0.8)) := le_max_right _ _

/-- Witness for the amended C1 at magnitude 0 and surface height 1. -/
theorem render_height_characterization_witness :
    render_height 0 1 = max 0 ((level_dB 0 + 80) / 80 * (1 * 0.8)) ∧
    (level_dB 0 ≤ -80 → render_height 0 1 = 0) ∧
    (level_dB 0 = 0 → render_height 0 1 = 1 * 0.8) ∧
    (0 < level_dB 0 → 1 * 0.8 < render_height 0 1) :=
  render_height_characterization 0 1 (by norm_num)

/-- Opaque handle standing for a successfully constructed `fftwf_plan`. -/
structure FFTPlanHandle where
  id : ℕ

/-- Observable outcome of the plan-handling tail of `process_audio`
(main.c lines 169-178). -/
structure PlanStepResult where
  g_fft_plan : Option FFTPlanHandle
  executeCalled : Bool
  executeArgIsNull : Bool
  exitedWithError : Bool
  stderrOutput : List String

/-- main.c lines 169-178: if the global plan is still null it is set to the
result of `fftwf_plan_dft_r2c_1d` (`planResult`, which is `none` on
construction failure), and then `fftwf_execute` is called unconditionally
on the stored plan.  There is no null check after construction, no
diagnostic output, and no termination path. -/
def process_audio_plan_step (g planResult : Option FFTPlanHandle) : PlanStepResult :=
  let g2 := if g.isNone then planResult else g
  { g_fft_plan := g2
    executeCalled := true
    executeArgIsNull := g2.isNone
    exitedWithError := false
    stderrOutput := [] }

/-- C3: evaluating the embedded code at the failing input (first call, plan
construction returns null): the transform is still executed with the null
plan, the program does not terminate with an error, and nothing is printed
to the error stream — the claimed fatal abort does not happen. -/
theorem plan_failure_not_fatal :
    (process_audio_plan_step none none).executeCalled = true ∧
    (process_audio_plan_step none none).executeArgIsNull = true ∧
    (process_audio_plan_step none none).exitedWithError = false ∧
    (process_audio_plan_step none none).stderrOutput = [] :=
  ⟨rfl, rfl, rfl, rfl⟩

/-- The two mutexes of `AppState` (main.c lines 35 and 40). -/
inductive MutexId
  | audioMutex
  | fftMutex
deriving DecidableEq

/-- Events of the embedded execution traces: lock/unlock of a mutex, a call
into the transform library (`fftwf_execute`), a call into the rendering
surface (an SDL render call), or internal computation. -/
inductive PipeEvent
  | lock (m : MutexId)
  | unlock (m : MutexId)
  | transformLibCall
  | surfaceCall
  | internal
deriving DecidableEq

/-- Walk a trace with the list of currently held mutexes, collecting for
every external call (transform library or rendering surface) the mutexes
held at that moment. -/
def heldCalls : List PipeEvent → List MutexId → List (PipeEvent × List MutexId)
  | [], _ => []
  | PipeEvent.lock m :: es, held => heldCalls es (m :: held)
  | PipeEvent.unlock m :: es, held => heldCalls es (held.erase m)
  | PipeEvent.transformLibCall :: es, held =>
      (PipeEvent.transformLibCall, held) :: heldCalls es held
  | PipeEvent.surfaceCall :: es, held =>
      (PipeEvent.surfaceCall, held) :: heldCalls es held
  | PipeEvent.internal :: es, held => heldCalls es held

/-- Trace of `audio_callback` (main.c lines 141-147) on a block of `n`
samples: lock the audio mutex, write the samples, unlock. -/
def audio_callback_trace (n : ℕ) : List PipeEvent :=
  PipeEvent.lock MutexId.audioMutex ::
    (List.replicate n PipeEvent.internal ++ [PipeEvent.unlock MutexId.audioMutex])

/-- Trace of `process_audio` (main.c lines 154-179): window-assembly loop
under the audio mutex, Hann loop, lazy plan construction, then
`fftwf_execute` under the fft mutex. -/
def process_audio_trace : List PipeEvent :=
  PipeEvent.lock MutexId.audioMutex ::
    (List.replicate FFT_SIZE PipeEvent.internal ++
      [PipeEvent.unlock MutexId.audioMutex] ++
      List.replicate FFT_SIZE PipeEvent.internal ++
      [PipeEvent.internal] ++
      [PipeEvent.lock MutexId.fftMutex, PipeEvent.transformLibCall,
        PipeEvent.unlock MutexId.fftMutex])

/-- Trace of `render_spectrum` (main.c lines 184-219): set color, clear and
size query, then per bin a color computation plus two surface calls
(set color, fill rect), then present. -/
def render_spectrum_trace : List PipeEvent :=
  [PipeEvent.surfaceCall, PipeEvent.surfaceCall, PipeEvent.surfaceCall] ++
    (List.replicate BINS
      [PipeEvent.internal, PipeEvent.surfaceCall, PipeEvent.surfaceCall]).flatten ++
    [PipeEvent.surfaceCall]

/-- One iteration of the main render loop (main.c lines 320-333): poll
events, copy the snapshot under the fft mutex, render, delay. -/
def main_loop_iteration_trace : List PipeEvent :=
  [PipeEvent.internal, PipeEvent.lock MutexId.fftMutex, PipeEvent.internal,
    PipeEvent.unlock MutexId.fftMutex] ++ render_spectrum_trace ++ [PipeEvent.internal]

/-- All traces of the program that touch a lock, the transform library or
the rendering surface, for a callback block of `n` samples. -/
def program_traces (n : ℕ) : List (List PipeEvent) :=
  [audio_callback_trace n, process_audio_trace, main_loop_iteration_trace]

theorem heldCalls_replicate_internal (n : ℕ) (es : List PipeEvent)
    (held : List MutexId) :
    heldCalls (List.replicate n PipeEvent.internal ++ es) held = heldCalls es held := by
  induction n with
  | zero => rfl
  | succ k ih => simp [List.replicate_succ, heldCalls, ih]

theorem heldCalls_audio_callback (n : ℕ) :
    heldCalls (audio_callback_trace n) [] = [] := by
  simp [audio_callback_trace, heldCalls, heldCalls_replicate_internal]

theorem heldCalls_process_audio :
    heldCalls process_audio_trace [] =
      [(PipeEvent.transformLibCall, [MutexId.fftMutex])] := by
  simp [process_audio_trace, heldCalls, heldCalls_replicate_internal]

theorem heldCalls_bar_blocks (k : ℕ) (es : List PipeEvent) (held : List MutexId) :
    heldCalls ((List.replicate k
        [PipeEvent.internal, PipeEvent.surfaceCall, PipeEvent.surfaceCall]).flatten ++ es)
        held =
      List.replicate (2 * k) (PipeEvent.surfaceCall, held) ++ heldCalls es held := by
  induction k with
  | zero => rfl
  | succ k ih =>
    have h2 : 2 * (k + 1) = 2 * k + 1 + 1 := by ring
    rw [h2]
    simp [List.replicate_succ, heldCalls, ih]

theorem heldCalls_main_loop :
    heldCalls main_loop_iteration_trace [] =
      (PipeEvent.surfaceCall, []) :: (PipeEvent.surfaceCall, []) ::
        (PipeEvent.surfaceCall, []) ::
        (List.replicate (2 * BINS) (PipeEvent.surfaceCall, ([] : List MutexId)) ++
          [(PipeEvent.surfaceCall, [])]) := by
  simp [main_loop_iteration_trace, render_spectrum_trace, heldCalls,
    heldCalls_bar_blocks]

/-- C4 counterexample: in the trace of `process_audio` the frequency-
snapshot mutex is held at the moment of the call into the transform
library (`fftwf_execute` is executed between `SDL_LockMutex(fft_mutex)`
and `SDL_UnlockMutex(fft_mutex)`, main.c lines 176-178), so the held-lock
set at that external call is not empty. -/
theorem fft_mutex_held_across_transform_call :
    (PipeEvent.transformLibCall, [MutexId.fftMutex]) ∈
        heldCalls process_audio_trace [] ∧
      ([MutexId.fftMutex] : List MutexId) ≠ [] := by
  rw [heldCalls_process_audio]
  exact ⟨List.mem_singleton_self _, by simp⟩

/-- C4 amended: in every execution trace of the program no mutex is held
during a call into the rendering surface, and the ring-buffer mutex is
never held during any external call; the single exception to the claim is
the transform-library call of `process_audio`, which runs while exactly
the frequency-snapshot mutex is held. -/
theorem no_lock_across_calls_except_fft_transform (n : ℕ) (tr : List PipeEvent)
    (p : PipeEvent × List MutexId)
    (htr : tr ∈ program_traces n) (hp : p ∈ heldCalls tr []) :
    p.2 = [] ∨ (p.1 = PipeEvent.transformLibCall ∧ p.2 = [MutexId.fftMutex]) := by
  simp only [program_traces, List.mem_cons, List.not_mem_nil, or_false] at htr
  rcases htr with h | h | h
  · rw [h, heldCalls_audio_callback] at hp
    exact absurd hp (List.not_mem_nil p)
  · rw [h, heldCalls_process_audio] at hp
    right
    rw [List.mem_singleton] at hp
    rw [hp]
    exact ⟨rfl, rfl⟩
  · rw [h, heldCalls_main_loop] at hp
    left
    simp only [List.mem_cons, List.mem_append, List.mem_replicate,
      List.mem_singleton, List.not_mem_nil, or_false] at hp
    rcases hp with h1 | h1 | h1 | ⟨_, h1⟩ | h1 <;> rw [h1]

/-- Witness for the amended C4 at the `process_audio` trace and its
transform-library call. -/
theorem no_lock_across_calls_except_fft_transform_witness :
    process_audio_trace ∈ program_traces 0 ∧
    (PipeEvent.transformLibCall, [MutexId.fftMutex]) ∈
      heldCalls process_audio_trace [] ∧
    (((PipeEvent.transformLibCall, [MutexId.fftMutex]) :
        PipeEvent × List MutexId).2 = [] ∨
      ((PipeEvent.transformLibCall, [MutexId.fftMutex]).1 =
          PipeEvent.transformLibCall ∧
        (PipeEvent.transformLibCall, [MutexId.fftMutex]).2 = [MutexId.fftMutex])) :=
  ⟨by simp [program_traces],
    by rw [heldCalls_process_audio]; exact List.mem_singleton_self _,
    no_lock_across_calls_except_fft_transform 0 process_audio_trace
      (PipeEvent.transformLibCall, [MutexId.fftMutex])
      (by simp [program_traces])
      (by rw [heldCalls_process_audio]; exact List.mem_singleton_self _)⟩

/-- C cast `(int)x` of a float: truncation toward zero. -/
noncomputable def c_int_of_float (x : ℝ) : ℤ := if x < 0 then ⌈x⌉ else ⌊x⌋

/-- `fmodf(a, b)`: floating-point remainder, `a - b * trunc(a / b)`. -/
noncomputable def fmodf (a b : ℝ) : ℝ := a - b * (c_int_of_float (a / b) : ℝ)

/-- `HSLtoRGB` (main.c lines 54-75): piecewise-linear HSL to RGB over six
60-degree hue sectors; the final `(Uint8)` casts truncate the in-range
channel values. -/
noncomputable def HSLtoRGB (h s l : ℝ) : ℤ × ℤ × ℤ :=
  let c := (1 - |2 * l / 100 - 1|) * (s / 100)
  let x := c * (1 - |fmodf (h / 60) 2 - 1|)
  let m := l / 100 - c / 2
  let rgb1 : ℝ × ℝ × ℝ :=
    if h < 60 then (c, x, 0)
    else if h < 120 then (x, c, 0)
    else if h < 180 then (0, c, x)
    else if h < 240 then (0, x, c)
    else if h < 300 then (x, 0, c)
    else (c, 0, x)
  (c_int_of_float ((rgb1.1 + m) * 255),
   c_int_of_float ((rgb1.2.1 + m) * 255),
   c_int_of_float ((rgb1.2.2 + m) * 255))

/-- Draw calls issued against the rendering surface. -/
inductive RenderCmd
  | setColor (r g b a : ℤ)
  | clear
  | fillRect (x y w h : ℤ)
  | present

/-- Body of the bar loop of `render_spectrum` (main.c lines 195-216) for
bin `i` holding complex value `(re, im)`: magnitude, decibel level, bar
height, hue, color, then the two draw calls. -/
noncomputable def render_bin_cmds (win_w win_h : ℤ) (i : ℕ) (re im : ℝ) :
    List RenderCmd :=
  let bin_width : ℝ := (win_w : ℝ) / (BINS : ℝ)
  let db := level_dB (magnitude re im)
  let bh := bar_height db (win_h : ℝ)
  let hue := ((i : ℝ) / (BINS : ℝ)) * 360
  let rgb := HSLtoRGB hue 100 50
  [RenderCmd.setColor rgb.1 rgb.2.1 rgb.2.2 255,
   RenderCmd.fillRect (c_int_of_float ((i : ℝ) * bin_width))
     (win_h - c_int_of_float bh)
     (c_int_of_float (bin_width - 2))
     (c_int_of_float bh)]

/-- The bar loop of `render_spectrum` over the first `n` bins, threading the
snapshot memory through every iteration so that mutation, were there any,
would be visible in the returned snapshot. -/
noncomputable def render_loop (win_w win_h : ℤ) (mem : ℕ → ℝ × ℝ) :
    ℕ → List RenderCmd × (ℕ → ℝ × ℝ)
  | 0 => ([], mem)
  | n + 1 =>
      let p := render_loop win_w win_h mem n
      (p.1 ++ render_bin_cmds win_w win_h n (p.2 n).1 (p.2 n).2, p.2)

/-- `render_spectrum` (main.c lines 184-219): clear, draw all `BINS` bars,
present; returns the draw-command list and the snapshot as the loop left
it. -/
noncomputable def render_spectrum (win_w win_h : ℤ) (fft_data : ℕ → ℝ × ℝ) :
    List RenderCmd × (ℕ → ℝ × ℝ) :=
  let p := render_loop win_w win_h fft_data BINS
  (RenderCmd.setColor 0 0 0 255 :: RenderCmd.clear :: (p.1 ++ [RenderCmd.present]),
    p.2)

theorem render_loop_preserves_data (win_w win_h : ℤ) (mem : ℕ → ℝ × ℝ) :
    ∀ n, (render_loop win_w win_h mem n).2 = mem := by
  intro n
  induction n with
  | zero => rfl
  | succ k ih => simp [render_loop, ih]

/-- C8: `render_spectrum` never mutates the frequency snapshot it is given:
the snapshot that comes back out of the read-then-draw step is the input
snapshot, and every individual bin value is unchanged. -/
theorem render_spectrum_preserves_snapshot (win_w win_h : ℤ)
    (fft_data : ℕ → ℝ × ℝ) :
    (render_spectrum win_w win_h fft_data).2 = fft_data ∧
    ∀ i, (render_spectrum win_w win_h fft_data).2 i = fft_data i := by
  have h : (render_spectrum win_w win_h fft_data).2 = fft_data := by
    simp [render_spectrum, render_loop_preserves_data]
  exact ⟨h, fun i => by rw [h]⟩

end TilinAV
